import Mathlib

/-!
Shallow embedding of the review-archive document pipeline
(`src/reviews-list.js`: list view and detail view).

Strings are modelled as Lean `String`s, with all character-level work done
on `List Char` (JavaScript strings are processed by index / regex in the
source; the `List Char` helpers below mirror those operations directly,
avoiding `String`'s byte-position internals).
-/

/-- The single-quote character (written via its code point). -/
def squote : Char := Char.ofNat 39

/-- The double-quote character (written via its code point). -/
def dquote : Char := Char.ofNat 34

/-- The backtick character (written via its code point). -/
def btick : Char := Char.ofNat 96

/-- Model of the JavaScript `\s` character class and of the characters
trimmed by `String.prototype.trim`, restricted to the code points that can
realistically occur in the repository's inputs. -/
def jsSpace (c : Char) : Bool :=
  c == ' ' || c == '\t' || c == '\n' || c == '\r' ||
  c == Char.ofNat 11 || c == Char.ofNat 12 ||
  c == Char.ofNat 0xa0 || c == Char.ofNat 0xfeff ||
  c == Char.ofNat 0x2028 || c == Char.ofNat 0x2029

/-- `true` when `c` is not a JavaScript line terminator; the regex dot `.`
(no `s` flag) matches exactly these characters. -/
def notLineTerm (c : Char) : Bool :=
  !(c == '\n' || c == '\r' || c == Char.ofNat 0x2028 || c == Char.ofNat 0x2029)

/-- Model of `String.prototype.trim`. -/
def trimChars (l : List Char) : List Char :=
  ((l.dropWhile jsSpace).reverse.dropWhile jsSpace).reverse

/-- Model of `str.split('\n')` (JavaScript `String.prototype.split` with a
one-character separator). -/
def splitLines : List Char → List (List Char)
  | [] => [[]]
  | c :: rest =>
      match splitLines rest with
      | h :: t => if c = '\n' then [] :: h :: t else (c :: h) :: t
      | [] => [[c]]

/-- Model of `str.split('_')`. -/
def splitUnderscore : List Char → List (List Char)
  | [] => [[]]
  | c :: rest =>
      match splitUnderscore rest with
      | h :: t => if c = '_' then [] :: h :: t else (c :: h) :: t
      | [] => [[c]]

/-- Model of `str.replace(c, rep)` with a global single-character pattern. -/
def replaceAll (t : Char) (rep : List Char) : List Char → List Char
  | [] => []
  | c :: rest =>
      if c = t then rep ++ replaceAll t rep rest else c :: replaceAll t rep rest

/-!
## DocumentSplitter (`splitFrontMatter`, detail view lines 240-247)

`text.match(/^---\n([\s\S]*?)\n---\n?/)`: the text must begin with the
line `---`; the lazy group then ends at the first occurrence of `"\n---"`,
and one immediately following newline is consumed if present.
-/

/-- Lazy search for the first occurrence of `"\n---"`: returns the part
before it and the part after it (the `[\s\S]*?` group and the remainder). -/
def findClose : List Char → Option (List Char × List Char)
  | [] => none
  | c :: rest =>
      if c = '\n' ∧ rest.take 3 = ['-', '-', '-'] then some ([], rest.drop 3)
      else
        match findClose rest with
        | some (inner, s) => some (c :: inner, s)
        | none => none

/-- Drop one leading newline, if present (the trailing `\n?` of the regex). -/
def dropOneNl (l : List Char) : List Char :=
  match l with
  | c :: t => if c = '\n' then t else l
  | [] => l

/-- Model of `splitFrontMatter(text)` (detail view): front-matter text and
body.  When the regex does not match, front matter is empty and the body is
the whole text. -/
def splitFrontMatter (text : String) : String × String :=
  if text.toList.take 4 = ['-', '-', '-', '\n'] then
    match findClose (text.toList.drop 4) with
    | some (inner, s) => (String.mk inner, String.mk (dropOneNl s))
    | none => ("", text)
  else ("", text)

/-- The first line of a text: everything before the first newline. -/
def firstLine (s : String) : String :=
  String.mk (s.toList.takeWhile (fun c => c ≠ '\n'))

/-!
## MetadataParser (`parseFrontMatter`, detail view lines 249-261; the same
per-line logic appears in the list view at lines 77-86)
-/

/-- Model of `line.indexOf(':')` followed by the two slices: the part
before the first colon and the part after it; `none` when there is no
colon. -/
def breakAtColon : List Char → Option (List Char × List Char)
  | [] => none
  | c :: rest =>
      if c = ':' then some ([], rest)
      else
        match breakAtColon rest with
        | some (k, v) => some (c :: k, v)
        | none => none

/-- `true` for the two quote characters of the value-stripping regex. -/
def isQuoteChar (c : Char) : Bool := c == squote || c == dquote

/-- Model of `rawValue.replace(/^['"]|['"]$/g, '')`: one leading quote
character is removed if present, and one trailing quote character is
removed if present — independently, the two need not match. -/
def stripQuotes (l : List Char) : List Char :=
  let l1 := match l with
    | c :: rest => if isQuoteChar c then rest else l
    | [] => []
  match l1.reverse with
  | c :: rest => if isQuoteChar c then rest.reverse else l1
  | [] => l1

/-- One line of the reducer body: key before the first colon (trimmed,
skipped when empty), value after it (trimmed, quotes stripped). -/
def parseMetaLine (line : List Char) : Option (String × String) :=
  match breakAtColon line with
  | none => none
  | some (k, v) =>
      let key := trimChars k
      if key = [] then none
      else some (String.mk key, String.mk (stripQuotes (trimChars v)))

/-- `acc[key] = value` on the association-list model of the accumulator
object: overwrite an existing binding, otherwise append. -/
def setKey (acc : List (String × String)) (k v : String) :
    List (String × String) :=
  if acc.any (fun p => p.1 == k) then
    acc.map (fun p => if p.1 == k then (k, v) else p)
  else acc ++ [(k, v)]

/-- Model of `parseFrontMatter(block)` (detail view): split into lines and
reduce each `key: value` line into the accumulator. -/
def parseFrontMatterBlock (block : String) : List (String × String) :=
  (splitLines block.toList).foldl
    (fun acc line =>
      match parseMetaLine line with
      | none => acc
      | some (k, v) => setKey acc k v)
    []

/-!
## FilenameInference (list view lines 89-111, detail view lines 275-282)
-/

/-- Model of `filename.replace(/\.md$/i, '')`: drop a trailing `.md`
suffix, case-insensitively. -/
def stripMdSuffix (l : List Char) : List Char :=
  match l.reverse with
  | d :: m :: p :: rest =>
      if (d = 'd' ∨ d = 'D') ∧ (m = 'm' ∨ m = 'M') ∧ p = '.' then rest.reverse
      else l
  | _ => l

/-- `true` for the separator class `[-_]`. -/
def isSepChar (c : Char) : Bool := c == '-' || c == '_'

/-- Model of `base.match(/^\d{4}-\d{2}-\d{2}[-_](.+)$/)`: when the text
starts with a dash-joined date and a separator, return the (non-empty,
line-terminator-free) remainder captured by `(.+)$`. -/
def dashedDateRest (l : List Char) : Option (List Char) :=
  match l with
  | y1 :: y2 :: y3 :: y4 :: h1 :: m1 :: m2 :: h2 :: d1 :: d2 :: s :: rest =>
      if ([y1, y2, y3, y4, m1, m2, d1, d2].all Char.isDigit) ∧
          h1 = '-' ∧ h2 = '-' ∧ isSepChar s ∧ rest ≠ [] ∧ rest.all notLineTerm
      then some rest
      else none
  | _ => none

/-- Model of `base.split('_').slice(1).join('_') || base`. -/
def dropFirstUnderscoreToken (base : List Char) : List Char :=
  let t := List.intercalate ['_'] ((splitUnderscore base).drop 1)
  if t = [] then base else t

/-- Model of `deriveTitleFromFilename` (list view lines 89-94): strip the
`.md` suffix; if a dashed date plus separator leads, the title is the rest;
otherwise drop the first `_`-delimited token, falling back to the whole
base when that leaves nothing. -/
def deriveTitleFromFilename (filename : String) : String :=
  let base := stripMdSuffix filename.toList
  match dashedDateRest base with
  | some rest => String.mk rest
  | none => String.mk (dropFirstUnderscoreToken base)

/-!
## Calendar model

`new Date(y, m, d)` / `getFullYear` / local-midnight subtraction are
modelled by a civil date triple and a proleptic-Gregorian day number (the
ambient time zone is taken as UTC, so a parsed `YYYY-MM-DD` value and its
local-midnight reinterpretation name the same calendar day).
-/

structure CivilDate where
  year : Nat
  month : Nat
  day : Nat
deriving DecidableEq

/-- Gregorian leap-year rule. -/
def isLeap (y : Nat) : Bool := y % 4 == 0 && (y % 100 != 0 || y % 400 == 0)

/-- Days in a given month (1-12) of year `y`. -/
def daysInMonth (y m : Nat) : Nat :=
  if m = 2 then (if isLeap y then 29 else 28)
  else if m = 4 ∨ m = 6 ∨ m = 9 ∨ m = 11 then 30
  else 31

/-- Days in the years `0, …, y-1` of the proleptic Gregorian calendar. -/
def daysBeforeYear (y : Nat) : Nat :=
  365 * y + (y + 3) / 4 - (y + 99) / 100 + (y + 399) / 400

/-- Days before month `m` (1-12) in a common year. -/
def monthOffset (m : Nat) : Nat :=
  match m with
  | 1 => 0 | 2 => 31 | 3 => 59 | 4 => 90 | 5 => 120 | 6 => 151
  | 7 => 181 | 8 => 212 | 9 => 243 | 10 => 273 | 11 => 304 | _ => 334

/-- Day number of a civil date (days since 0000-01-01). -/
def dayNumber (x : CivilDate) : Nat :=
  daysBeforeYear x.year + monthOffset x.month +
    (if isLeap x.year ∧ 2 < x.month then 1 else 0) + (x.day - 1)

/-- Numeric value of a digit character. -/
def digitVal (c : Char) : Nat := c.toNat - 48

/-- Model of `new Date(str)` for the inputs this pipeline produces: a
date-only ISO string `YYYY-MM-DD` naming a valid calendar day parses; every
other string yields an invalid date (`none`, the NaN timestamp). -/
def jsNewDate (s : String) : Option CivilDate :=
  match s.toList with
  | [y1, y2, y3, y4, h1, m1, m2, h2, d1, d2] =>
      if ([y1, y2, y3, y4, m1, m2, d1, d2].all Char.isDigit) ∧ h1 = '-' ∧ h2 = '-'
      then
        let y := ((digitVal y1 * 10 + digitVal y2) * 10 + digitVal y3) * 10 + digitVal y4
        let m := digitVal m1 * 10 + digitVal m2
        let d := digitVal d1 * 10 + digitVal d2
        if 1 ≤ m ∧ m ≤ 12 ∧ 1 ≤ d ∧ d ≤ daysInMonth y m then some ⟨y, m, d⟩
        else none
      else none
  | _ => none

/-!
## RelativeDateFormatter (list view lines 151-206)
-/

/-- Model of `parseDate` (lines 170-183): trim, normalise `.` and `/` to
`-`, try `new Date`; on failure, reinterpret an 8-digit value by positional
slicing and retry. -/
def parseDate (value : String) : Option CivilDate :=
  let cleaned := trimChars value.toList
  let isoCandidate := replaceAll '/' ['-'] (replaceAll '.' ['-'] cleaned)
  match jsNewDate (String.mk isoCandidate) with
  | some d => some d
  | none =>
      match cleaned with
      | [a, b, c, d, e, f, g, h] =>
          if [a, b, c, d, e, f, g, h].all Char.isDigit
          then jsNewDate (String.mk [a, b, c, d, '-', e, f, '-', g, h])
          else none
      | _ => none

inductive Lang
  | ko
  | en
deriving DecidableEq

/-- One locale's phrases (the `TEXT` table, lines 185-200). -/
structure LocaleText where
  today : String
  day : Int → String
  week : Int → String
  month : Int → String
  year : Int → String

/-- The `TEXT` localisation table. -/
def TEXT : Lang → LocaleText
  | .ko =>
      { today := "오늘"
        day := fun n => toString n ++ "일 전"
        week := fun n => toString n ++ "주 전"
        month := fun n => toString n ++ "달 전"
        year := fun n => toString n ++ "년 전" }
  | .en =>
      { today := "Today"
        day := fun n => toString n ++ " days ago"
        week := fun n => toString n ++ " weeks ago"
        month := fun n => toString n ++ " months ago"
        year := fun n => toString n ++ " years ago" }

/-- The units `relative` can be called with. -/
inductive TUnit
  | day
  | week
  | month
  | year

/-- Model of `(document.documentElement.lang || 'ko').startsWith('en')`
(line 203): the ambient page language is passed explicitly. -/
def resolveLang (pageLang : String) : Lang :=
  if "en".toList.isPrefixOf (if pageLang = "" then "ko" else pageLang).toList
  then .en else .ko

/-- Model of `relative(n, unit)` (lines 202-206). -/
def relative (pageLang : String) (n : Int) (u : TUnit) : String :=
  let copy := TEXT (resolveLang pageLang)
  match u with
  | .day => copy.day n
  | .week => copy.week n
  | .month => copy.month n
  | .year => copy.year n

/-- Model of `formatRelativeDate(value)` (lines 151-168).  The ambient
page language and today's civil date are passed explicitly; the
local-midnight difference in milliseconds divided by 86400000 is the day
number difference. -/
def formatRelativeDate (pageLang : String) (today : CivilDate) (value : String) :
    String :=
  if value = "" then ""
  else
    match parseDate value with
    | none => value
    | some target =>
        let diffDays : Int := (dayNumber today : Int) - (dayNumber target : Int)
        if diffDays ≤ 0 then "오늘"
        else if diffDays < 7 then relative pageLang diffDays .day
        else if diffDays / 7 < 4 then relative pageLang (diffDays / 7) .week
        else if diffDays / 30 < 12 then relative pageLang (diffDays / 30) .month
        else relative pageLang (diffDays / 365) .year

/-!
## ReviewCatalog (`loadReviews`, list view lines 11-16)
-/

/-- One list-view record built by `fetchReviewMetadata`. -/
structure Review where
  title : String
  date : String
  url : String
deriving DecidableEq

/-- Timestamp of `new Date(dateString)` in milliseconds; `none` is the NaN
timestamp of an invalid date. -/
def dateValue (s : String) : Option Int :=
  (jsNewDate s).map (fun d => (dayNumber d : Int) * 86400000)

/-- The sort comparator `(a, b) => new Date(b.date) - new Date(a.date)`;
a NaN comparator value is treated as `0` by `Array.prototype.sort`. -/
def jsCompare (a b : Review) : Int :=
  match dateValue b.date, dateValue a.date with
  | some vb, some va => vb - va
  | _, _ => 0

/-- Stable insertion placing `x` before the first element it need not
follow: `x` precedes `y` whenever the comparator does not order `y`
strictly first. -/
def insertReview (x : Review) : List Review → List Review
  | [] => [x]
  | y :: ys => if jsCompare x y ≤ 0 then x :: y :: ys else y :: insertReview x ys

/-- Stable sort with the `jsCompare` comparator, modelling the (stable,
per ES2019) `Array.prototype.sort`. -/
def sortReviews : List Review → List Review
  | [] => []
  | x :: xs => insertReview x (sortReviews xs)

/-- Model of the pure core of `loadReviews` (lines 11-16): the fetched
per-document results (`null` for failures) are filtered and sorted newest
first. -/
def loadReviews (metadata : List (Option Review)) : List Review :=
  sortReviews (metadata.filterMap id)

/-!
## MarkdownRenderer (`markdownToHtml`, detail view lines 289-375)
-/

/-- Model of `escapeHtml` (lines 370-375): three sequential global
replaces, `&` first so the entities it introduces are not re-escaped. -/
def escapeHtml (l : List Char) : List Char :=
  replaceAll '>' "&gt;".toList
    (replaceAll '<' "&lt;".toList
      (replaceAll '&' "&amp;".toList l))

/-- Shortest non-empty content made of `ok` characters followed by the
closing delimiter: the lazy group of `open(.+?)close`.  Returns the content
and what follows the closing delimiter. -/
def splitAtClose (close : List Char) (ok : Char → Bool) :
    List Char → Option (List Char × List Char)
  | [] => none
  | c :: rest =>
      if ok c then
        if close.isPrefixOf rest then some ([c], rest.drop close.length)
        else
          match splitAtClose close ok rest with
          | some (content, s) => some (c :: content, s)
          | none => none
      else none

/-- One global, leftmost-first, non-overlapping delimiter replacement as
performed by `String.prototype.replace` with a `g`-flagged lazy pattern:
wrap each matched content in `left`/`right` and continue after the match.
The fuel argument bounds the scan by the input length. -/
def scanRepl (opn close : List Char) (ok : Char → Bool) (left right : List Char) :
    Nat → List Char → List Char
  | _, [] => []
  | 0, l => l
  | fuel + 1, c :: rest =>
      if opn.isPrefixOf (c :: rest) then
        match splitAtClose close ok ((c :: rest).drop opn.length) with
        | some (content, s) =>
            left ++ content ++ right ++ scanRepl opn close ok left right fuel s
        | none => c :: scanRepl opn close ok left right fuel rest
      else c :: scanRepl opn close ok left right fuel rest

/-- Entry point of the scan with enough fuel for the whole input. -/
def scanReplace (opn close : List Char) (ok : Char → Bool)
    (left right : List Char) (l : List Char) : List Char :=
  scanRepl opn close ok left right l.length l

/-- Model of `inlineMarkdown` (lines 360-368): escape first, then the five
delimiter substitutions in source order (bold `**`, bold `__`, italic `*`,
italic `_`, inline code in backticks). -/
def inlineMarkdownL (text : List Char) : List Char :=
  let r0 := escapeHtml text
  let r1 := scanReplace ['*', '*'] ['*', '*'] notLineTerm
    "<strong>".toList "</strong>".toList r0
  let r2 := scanReplace ['_', '_'] ['_', '_'] notLineTerm
    "<strong>".toList "</strong>".toList r1
  let r3 := scanReplace ['*'] ['*'] notLineTerm "<em>".toList "</em>".toList r2
  let r4 := scanReplace ['_'] ['_'] notLineTerm "<em>".toList "</em>".toList r3
  scanReplace [btick] [btick] (fun c => !(c == btick))
    "<code>".toList "</code>".toList r4

/-- `inlineMarkdown` on strings. -/
def inlineMarkdown (s : String) : String := String.mk (inlineMarkdownL s.toList)

/-- The renderer's mutable state: emitted blocks, code-fence mode, the
pending code lines and the pending list items. -/
structure MdState where
  html : List (List Char)
  inCode : Bool
  codeLines : List (List Char)
  listBuffer : List (List Char)

/-- Model of `flushCode` (lines 296-301). -/
def flushCode (st : MdState) : MdState :=
  if st.inCode then
    { st with
      html := st.html ++
        ["<pre><code>".toList ++ escapeHtml (List.intercalate ['\n'] st.codeLines) ++
          "</code></pre>".toList]
      inCode := false
      codeLines := [] }
  else st

/-- Model of `flushList` (lines 303-308). -/
def flushList (st : MdState) : MdState :=
  if st.listBuffer = [] then st
  else
    { st with
      html := st.html ++
        ["<ul>".toList ++
          (st.listBuffer.map (fun item => "<li>".toList ++ item ++ "</li>".toList)).flatten ++
          "</ul>".toList]
      listBuffer := [] }

/-- Model of `rawLine.replace(/\r$/, '')`. -/
def stripCR (l : List Char) : List Char :=
  match l.reverse with
  | '\r' :: rest => rest.reverse
  | _ => l

/-- Model of `/^```/.test(line)` (a fence is any line starting with three
backticks). -/
def isFence (l : List Char) : Bool :=
  match l with
  | a :: b :: c :: _ => a == btick && b == btick && c == btick
  | _ => false

/-- Model of `line.match(/^(#{1,6})\s+(.*)$/)`: heading level and text
(text after the maximal run of whitespace; the match fails when a line
terminator would remain inside `(.*)$`). -/
def headingMatch (l : List Char) : Option (Nat × List Char) :=
  let n := (l.takeWhile (fun c => c == '#')).length
  let rest := l.drop n
  if 1 ≤ n ∧ n ≤ 6 then
    match rest with
    | c :: _ =>
        if jsSpace c then
          let text := rest.dropWhile jsSpace
          if text.all notLineTerm then some (n, text) else none
        else none
    | [] => none
  else none

/-- Model of `line.match(/^[-*+]\s+(.*)$/)`: the inline text of a list
item line. -/
def listMatch (l : List Char) : Option (List Char) :=
  match l with
  | c :: rest =>
      if c == '-' || c == '*' || c == '+' then
        match rest with
        | d :: _ =>
            if jsSpace d then
              let text := rest.dropWhile jsSpace
              if text.all notLineTerm then some text else none
            else none
        | [] => none
      else none
  | [] => none

/-- Model of `line.replace(/^>\s?/, '')`. -/
def stripBq (l : List Char) : List Char :=
  match l with
  | '>' :: rest =>
      match rest with
      | c :: t => if jsSpace c then t else rest
      | [] => []
  | _ => l

/-- One iteration of the `lines.forEach` body (lines 310-353), in the
source's priority order: fence toggle, code accumulation, heading, list
item, list flush, blank line, blockquote, paragraph. -/
def processLine (st : MdState) (rawLine : List Char) : MdState :=
  let line := stripCR rawLine
  if isFence line then
    if st.inCode then flushCode st else { st with inCode := true }
  else if st.inCode then { st with codeLines := st.codeLines ++ [line] }
  else
    match headingMatch line with
    | some (level, text) =>
        let st := flushList st
        { st with
          html := st.html ++
            ["<h".toList ++ (toString level).toList ++ ">".toList ++
              inlineMarkdownL text ++
              "</h".toList ++ (toString level).toList ++ ">".toList] }
    | none =>
        match listMatch line with
        | some itemText =>
            { st with listBuffer := st.listBuffer ++ [inlineMarkdownL itemText] }
        | none =>
            let st := flushList st
            if trimChars line = [] then st
            else if (match line with | '>' :: _ => true | _ => false) then
              { st with
                html := st.html ++
                  ["<blockquote>".toList ++ inlineMarkdownL (stripBq line) ++
                    "</blockquote>".toList] }
            else
              { st with
                html := st.html ++
                  ["<p>".toList ++ inlineMarkdownL line ++ "</p>".toList] }

/-- Model of `markdownToHtml(markdown)` (lines 289-358): fold the state
machine over the lines, flush the pending list and then the pending code
buffer, and join the emitted blocks with newlines. -/
def markdownToHtml (markdown : String) : String :=
  let lines := splitLines markdown.toList
  let st := lines.foldl processLine ⟨[], false, [], []⟩
  let st := flushCode (flushList st)
  String.mk (List.intercalate ['\n'] st.html)

/-!
## Claim-side definitions
-/

/-- The 10-character dash-joined date shape `YYYY-MM-DD`. -/
def isDashedDateShape (l : List Char) : Bool :=
  match l with
  | [a, b, c, d, h1, e, f, h2, g, h] =>
      [a, b, c, d, e, f, g, h].all Char.isDigit && h1 == '-' && h2 == '-'
  | _ => false

/-- Title derivation as the amended claim words it: if the suffix-stripped
filename starts with a dash-joined `YYYY-MM-DD` date, then a `-` or `_`
separator, then a non-empty remainder, the title is that remainder;
otherwise the title is the suffix-stripped filename with the first
`_`-delimited token removed, falling back to the whole suffix-stripped
filename when that removal leaves nothing. -/
def titlePerAmendedClaim (filename : String) : String :=
  let base := stripMdSuffix filename.toList
  if isDashedDateShape (base.take 10) ∧
      ((base.drop 10).headD ' ' = '-' ∨ (base.drop 10).headD ' ' = '_') ∧
      base.drop 11 ≠ [] ∧ (base.drop 11).all notLineTerm
  then String.mk (base.drop 11)
  else String.mk (dropFirstUnderscoreToken base)

/-- Catalog-ordering fixtures: three records with parseable dates. -/
def recJan : Review := ⟨"a", "2024-01-01", "u1"⟩

def recMar : Review := ⟨"b", "2024-03-01", "u2"⟩

def recFeb : Review := ⟨"c", "2024-02-01", "u3"⟩

/-- Catalog-ordering fixtures: three records with unparseable dates, in
an input order that is neither lexically ascending nor descending. -/
def recB : Review := ⟨"t1", "bbb", "u4"⟩

def recA : Review := ⟨"t2", "aaa", "u5"⟩

def recC : Review := ⟨"t3", "ccc", "u6"⟩

/-!
## Helper lemmas
-/

/-- A newline-free text is a single line. -/
theorem splitLines_eq_single (l : List Char) (h : '\n' ∉ l) :
    splitLines l = [l] := by
  induction l with
  | nil => rfl
  | cons c rest ih =>
      have hc : ¬ c = '\n' := fun hcc => h (hcc ▸ List.mem_cons_self c rest)
      have hr : '\n' ∉ rest := fun hm => h (List.mem_cons_of_mem c hm)
      simp [splitLines, ih hr, hc]

/-- `findClose` really decomposes its input around the first `"\n---"`. -/
theorem findClose_decomp (l : List Char) :
    ∀ inner s, findClose l = some (inner, s) →
      l = inner ++ '\n' :: '-' :: '-' :: '-' :: s := by
  induction l with
  | nil => intro inner s h; simp [findClose] at h
  | cons c rest ih =>
      intro inner s h
      unfold findClose at h
      split at h
      · next hcond =>
          simp only [Option.some.injEq, Prod.mk.injEq] at h
          obtain ⟨rfl, rfl⟩ := h
          have hr : rest = '-' :: '-' :: '-' :: rest.drop 3 := by
            conv_lhs => rw [← List.take_append_drop 3 rest, hcond.2]
            rfl
          rw [hcond.1]
          conv_lhs => rw [hr]
          simp
      · next hcond =>
          split at h
          · next i s2 heq =>
              simp only [Option.some.injEq, Prod.mk.injEq] at h
              obtain ⟨rfl, rfl⟩ := h
              simp [ih _ _ heq]
          · next heq => simp at h

/-- A list whose every record has an unparseable date is left in input
order by the stable sort: every comparator value is the NaN-as-zero tie. -/
theorem sortReviews_all_none (l : List Review)
    (h : ∀ r ∈ l, dateValue r.date = none) : sortReviews l = l := by
  induction l with
  | nil => rfl
  | cons x xs ih =>
      have hxs : ∀ r ∈ xs, dateValue r.date = none :=
        fun r hr => h r (List.mem_cons_of_mem _ hr)
      unfold sortReviews
      rw [ih hxs]
      cases xs with
      | nil => rfl
      | cons y ys =>
          have hy : dateValue y.date = none := h y (by simp)
          have hcmp : jsCompare x y ≤ 0 := by simp [jsCompare, hy]
          simp [insertReview, hcmp]

/-- The leading-anchored date regex of `deriveTitleFromFilename`, restated
through `take`/`drop`: it succeeds exactly when the first ten characters
form the dashed date shape, character eleven is a separator, and a
non-empty line-terminator-free remainder follows. -/
theorem dashedDateRest_shape (l : List Char) :
    dashedDateRest l =
      if isDashedDateShape (l.take 10) ∧
          ((l.drop 10).headD ' ' = '-' ∨ (l.drop 10).headD ' ' = '_') ∧
          l.drop 11 ≠ [] ∧ (l.drop 11).all notLineTerm
      then some (l.drop 11) else none := by
  rcases l with _ | ⟨a, _ | ⟨b, _ | ⟨c, _ | ⟨d, _ | ⟨e, _ | ⟨f, _ | ⟨g, _ | ⟨h, _ | ⟨i, _ | ⟨j, _ | ⟨k, rest⟩⟩⟩⟩⟩⟩⟩⟩⟩⟩⟩
  all_goals simp [dashedDateRest, isDashedDateShape, isSepChar, List.take, List.drop]
  exact if_congr (by tauto) rfl rfl

/-!
## Claim theorems
-/

/-- C1: the claim says a date equal to today's calendar day formats to the
today phrase of the active locale — English when the page language starts
with `en`.  The code instead returns the hard-coded Korean phrase in the
today bucket even in the English locale, while the other buckets are
localized; the `TEXT` table's English today entry is never used. -/
theorem formatRelativeDate_today_ignores_locale :
    formatRelativeDate "en" ⟨2024, 1, 15⟩ "2024-01-15" = "오늘" ∧
    formatRelativeDate "en" ⟨2024, 1, 18⟩ "2024-01-15" = "3 days ago" ∧
    resolveLang "en" = Lang.en ∧
    (TEXT Lang.en).today = "Today" ∧
    ("오늘" : String) ≠ "Today" :=
  ⟨by decide, by decide, by decide, rfl, by decide⟩

/-- C2: counterexample to the claim that quote characters are stripped
only as a matching pair — the code also strips a lone leading quote, and a
mismatched leading/trailing pair. -/
theorem parseFrontMatter_lone_quote_stripped :
    parseFrontMatterBlock ("title: " ++ String.mk [squote] ++ "abc") =
      [("title", "abc")] ∧
    ("abc" : String) ≠ String.mk [squote] ++ "abc" ∧
    parseFrontMatterBlock ("k: " ++ String.mk [squote] ++ "v" ++ String.mk [dquote]) =
      [("k", "v")] := by
  refine ⟨by decide, by decide, by decide⟩

/-- C2 (amended): for every newline-free front-matter line whose first
colon yields a non-empty trimmed key, the parsed value is the substring
after the first colon, trimmed, with one leading quote character removed
if present and one trailing quote character removed if present — the two
independently, whether or not they match. -/
theorem parseFrontMatter_value_rule (line k v : List Char)
    (hnl : '\n' ∉ line)
    (hbreak : breakAtColon line = some (k, v))
    (hkey : trimChars k ≠ []) :
    parseFrontMatterBlock (String.mk line) =
      [(String.mk (trimChars k), String.mk (stripQuotes (trimChars v)))] := by
  unfold parseFrontMatterBlock
  have h1 : (String.mk line).toList = line := rfl
  rw [h1, splitLines_eq_single line hnl]
  simp [parseMetaLine, hbreak, hkey, setKey]

/-- C2 (witness): the value rule applied to the line `title: hi`. -/
theorem parseFrontMatter_value_rule_witness :
    parseFrontMatterBlock "title: hi" = [("title", "hi")] := by
  have h := parseFrontMatter_value_rule "title: hi".toList "title".toList
    " hi".toList (by decide) (by decide) (by decide)
  exact h

/-- C3: counterexample to the claim that an 8-digit compact date prefix
followed by a separator and a slug yields the slug — with a `-` separator
the date-matching regex (dashed dates only) fails and the `_`-split
fallback leaves the whole base name as the title. -/
theorem deriveTitle_compact_date_not_slug :
    deriveTitleFromFilename "20240115-slug.md" = "20240115-slug" ∧
    deriveTitleFromFilename "20240115-slug.md" ≠ "slug" :=
  ⟨by decide, by decide⟩

/-- C3 (amended): the title derivation follows the case order with a
dashed date only: if the suffix-stripped filename matches
`<YYYY-MM-DD><-or-_><rest>` the title is `<rest>`; otherwise the first
`_`-delimited token is removed, and when that leaves nothing the title is
the filename minus its suffix.  (An 8-digit compact date prefix reaches
the slug only through the `_`-split fallback.) -/
theorem deriveTitle_cases (filename : String) :
    deriveTitleFromFilename filename = titlePerAmendedClaim filename := by
  simp only [deriveTitleFromFilename, titlePerAmendedClaim]
  rw [dashedDateRest_shape]
  by_cases hc : isDashedDateShape ((stripMdSuffix filename.toList).take 10) ∧
      (((stripMdSuffix filename.toList).drop 10).headD ' ' = '-' ∨
        ((stripMdSuffix filename.toList).drop 10).headD ' ' = '_') ∧
      (stripMdSuffix filename.toList).drop 11 ≠ [] ∧
      ((stripMdSuffix filename.toList).drop 11).all notLineTerm
  · rw [if_pos hc, if_pos hc]
  · rw [if_neg hc, if_neg hc]

/-- C4: counterexample to lexical ordering of unparseable dates — three
all-unparseable records stay in input order (every comparator value is the
NaN-as-zero tie), which is neither the ascending nor the descending
lexical order of the date strings `bbb`, `aaa`, `ccc`. -/
theorem loadReviews_unparseable_not_lexical :
    loadReviews [some recB, some recA, some recC] = [recB, recA, recC] ∧
    [recB, recA, recC] ≠ [recA, recB, recC] ∧
    [recB, recA, recC] ≠ [recC, recB, recA] ∧
    dateValue recA.date = none ∧ dateValue recB.date = none ∧
    dateValue recC.date = none := by
  refine ⟨by decide, by decide, by decide, by decide, by decide, by decide⟩

/-- C4 (amended): retained records are ordered newest first by parsed
date — dates 2024-01-01, 2024-03-01, 2024-02-01 come out as 2024-03-01,
2024-02-01, 2024-01-01 — and records whose dates are all unparseable are
left in input order by the stable sort (every comparison is the
NaN-as-zero tie), without crashing. -/
theorem loadReviews_order :
    loadReviews [some recJan, some recMar, some recFeb] =
      [recMar, recFeb, recJan] ∧
    ∀ l : List Review, (∀ r ∈ l, dateValue r.date = none) →
      loadReviews (l.map some) = l := by
  constructor
  · decide
  · intro l hl
    unfold loadReviews
    have hfm : (l.map some).filterMap id = l := by simp
    rw [hfm, sortReviews_all_none l hl]

/-- C4 (witness): the all-unparseable case applied to one record. -/
theorem loadReviews_order_witness :
    dateValue recB.date = none ∧ loadReviews [some recB] = [recB] :=
  ⟨by decide, loadReviews_order.2 [recB] (by decide)⟩

/-- C5: when the first line of the text is not exactly `---`, the splitter
returns empty front matter and the whole text as body (the regex is
anchored at the start; `split` is total, so malformed front matter cannot
fail). -/
theorem splitFrontMatter_no_leading_delim (text : String)
    (h : firstLine text ≠ "---") :
    splitFrontMatter text = ("", text) := by
  unfold splitFrontMatter
  by_cases hc : text.toList.take 4 = ['-', '-', '-', '\n']
  · exfalso
    apply h
    have hdecomp : text.toList = '-' :: '-' :: '-' :: '\n' :: text.toList.drop 4 := by
      conv_lhs => rw [← List.take_append_drop 4 text.toList, hc]
      rfl
    unfold firstLine
    rw [hdecomp]
    rfl
  · rw [if_neg hc]

/-- C5 (witness): a text whose first line is `hello`. -/
theorem splitFrontMatter_no_leading_delim_witness :
    firstLine "hello\n---\nx" ≠ "---" ∧
    splitFrontMatter "hello\n---\nx" = ("", "hello\n---\nx") :=
  ⟨by decide, splitFrontMatter_no_leading_delim "hello\n---\nx" (by decide)⟩

/-- C6: at end of input the pending list buffer is flushed and then the
pending code buffer, so an unclosed code fence still emits its code block:
the fence-then-`foo` input yields exactly one code block containing `foo`,
and with a pending list the list block precedes the code block. -/
theorem markdownToHtml_unclosed_fence :
    markdownToHtml "```\nfoo" = "<pre><code>foo</code></pre>" ∧
    markdownToHtml "- a\n```\nfoo" =
      "<ul><li>a</li></ul>\n<pre><code>foo</code></pre>" :=
  ⟨by decide, by decide⟩

/-- C7: inline formatting escapes `&`, `<`, `>` before any markup
substitution, so emitted tags are not re-escaped: `<b>**x**</b>` renders
with the literal angle brackets escaped and the bold markup converted. -/
theorem inlineMarkdown_escapes_before_markup :
    inlineMarkdown "<b>**x**</b>" = "&lt;b&gt;<strong>x</strong>&lt;/b&gt;" := by
  decide

/-- C8: for every parseable date value the formatter buckets the
local-midnight day difference by first match: `≤ 0` is the today phrase,
`1..6` days ago, `7..27` weeks ago with `floor(diffDays/7)`, then months
with `floor(diffDays/30) < 12`, otherwise years with
`floor(diffDays/365)`. -/
theorem formatRelativeDate_buckets (pageLang : String) (today target : CivilDate)
    (value : String) (hne : value ≠ "") (hp : parseDate value = some target) :
    formatRelativeDate pageLang today value =
      (if (dayNumber today : Int) - (dayNumber target : Int) ≤ 0 then "오늘"
       else if 1 ≤ (dayNumber today : Int) - (dayNumber target : Int) ∧
           (dayNumber today : Int) - (dayNumber target : Int) ≤ 6 then
         relative pageLang ((dayNumber today : Int) - (dayNumber target : Int)) .day
       else if 7 ≤ (dayNumber today : Int) - (dayNumber target : Int) ∧
           (dayNumber today : Int) - (dayNumber target : Int) ≤ 27 then
         relative pageLang
           (((dayNumber today : Int) - (dayNumber target : Int)) / 7) .week
       else if ((dayNumber today : Int) - (dayNumber target : Int)) / 30 < 12 then
         relative pageLang
           (((dayNumber today : Int) - (dayNumber target : Int)) / 30) .month
       else
         relative pageLang
           (((dayNumber today : Int) - (dayNumber target : Int)) / 365) .year) := by
  unfold formatRelativeDate
  rw [if_neg hne, hp]
  set d : Int := (dayNumber today : Int) - (dayNumber target : Int) with hd
  show (if d ≤ 0 then "오늘"
    else if d < 7 then relative pageLang d .day
    else if d / 7 < 4 then relative pageLang (d / 7) .week
    else if d / 30 < 12 then relative pageLang (d / 30) .month
    else relative pageLang (d / 365) .year) = _
  by_cases h0 : d ≤ 0
  · rw [if_pos h0, if_pos h0]
  · rw [if_neg h0, if_neg h0]
    by_cases h7 : d < 7
    · rw [if_pos h7, if_pos (by omega : 1 ≤ d ∧ d ≤ 6)]
    · rw [if_neg h7, if_neg (by omega : ¬(1 ≤ d ∧ d ≤ 6))]
      by_cases hw : d / 7 < 4
      · rw [if_pos hw, if_pos (by omega : 7 ≤ d ∧ d ≤ 27)]
      · rw [if_neg hw, if_neg (by omega : ¬(7 ≤ d ∧ d ≤ 27))]

/-- C8 (witness): three days before today in the Korean locale. -/
theorem formatRelativeDate_buckets_witness :
    ("2024-01-01" : String) ≠ "" ∧
    parseDate "2024-01-01" = some ⟨2024, 1, 1⟩ ∧
    formatRelativeDate "ko" ⟨2024, 1, 4⟩ "2024-01-01" = "3일 전" := by
  refine ⟨by decide, by decide, ?_⟩
  have h := formatRelativeDate_buckets "ko" ⟨2024, 1, 4⟩ ⟨2024, 1, 1⟩
    "2024-01-01" (by decide) (by decide)
  rw [h]
  decide

/-- C9: consecutive list-item lines are buffered and emitted as a single
unordered list: `- a` then `- b` produce one `<ul>` with two `<li>`
items. -/
theorem markdownToHtml_groups_list_items :
    markdownToHtml "- a\n- b" = "<ul><li>a</li><li>b</li></ul>" := by decide

/-- C10: the body returned by the splitter is always a character-for-
character suffix of the input text — the whole text when no front matter
is recognized, the text minus the matched prefix otherwise. -/
theorem splitFrontMatter_body_suffix (text : String) :
    ∃ pre, pre ++ (splitFrontMatter text).2.toList = text.toList := by
  unfold splitFrontMatter
  by_cases hc : text.toList.take 4 = ['-', '-', '-', '\n']
  · rw [if_pos hc]
    cases hfind : findClose (text.toList.drop 4) with
    | none => exact ⟨[], by simp⟩
    | some p =>
        obtain ⟨inner, s⟩ := p
        have hdrop : text.toList.drop 4 = inner ++ '\n' :: '-' :: '-' :: '-' :: s :=
          findClose_decomp _ _ _ hfind
        have hdecomp : text.toList =
            '-' :: '-' :: '-' :: '\n' :: (inner ++ '\n' :: '-' :: '-' :: '-' :: s) := by
          conv_lhs => rw [← List.take_append_drop 4 text.toList, hc]
          rw [hdrop]
          rfl
        have hs : ∃ p2, p2 ++ dropOneNl s = s := by
          cases s with
          | nil => exact ⟨[], rfl⟩
          | cons c t =>
              by_cases hcn : c = '\n'
              · subst hcn; exact ⟨['\n'], by simp [dropOneNl]⟩
              · exact ⟨[], by simp [dropOneNl, hcn]⟩
        obtain ⟨p2, hp2⟩ := hs
        refine ⟨'-' :: '-' :: '-' :: '\n' :: (inner ++ '\n' :: '-' :: '-' :: '-' :: p2), ?_⟩
        show '-' :: '-' :: '-' :: '\n' :: (inner ++ '\n' :: '-' :: '-' :: '-' :: p2) ++
          dropOneNl s = text.toList
        rw [hdecomp]
        simp only [List.cons_append, List.append_assoc]
        rw [hp2]
  · rw [if_neg hc]
    exact ⟨[], rfl⟩
